import Mathlib

/-!
Shallow embedding of `adress_book3.py`: a contact manager with validated
phone and birthday fields, a `Record` aggregate and an `AddressBook`
collection with search, pagination and whole-book persistence.

Conventions of the embedding:
* a `Phone` object is identified with its string value (the dataclass
  compares, hashes and orders phones by that value);
* Python exceptions become `Except` / an explicit `Option BookError`
  channel; an in-place mutating method becomes a function returning the
  record state after the call together with the error it raised, so that
  partial mutation before an exception stays observable;
* Python `datetime.date` becomes `PyDate` with the proleptic Gregorian
  ordinal (`date.toordinal`) made explicit;
* strings are modelled over their character lists (ASCII reading of
  `str.isdigit`).
-/

namespace AdressBook

/-- Errors raised by the module: `ValueError` from phone validation
(carrying the offending string and the format hint), `ValueError` from
`list.remove` / `list.index` on a missing value, and `ValueError` from the
`date` constructor inside `days_to_birthday`. -/
inductive BookError where
  | validation (offending : String) (expected : String)
  | notFound
  | badDate (y m d : Nat)
deriving DecidableEq, Repr

/-- Format hint carried by a phone validation error. -/
def phoneFormat : String := "Please specify a 9-digit string"

/-- Python `str.isdigit` (ASCII model): nonempty and every character a
decimal digit. -/
def pyIsDigit (s : String) : Bool := !s.isEmpty && s.data.all Char.isDigit

/-- `Phone.is_phone_valid`: returns `True` for a 9-character digit string
and raises `ValueError` otherwise. -/
def is_phone_valid (phone_number : String) : Except BookError Bool :=
  if pyIsDigit phone_number && phone_number.length == 9 then Except.ok true
  else Except.error (BookError.validation phone_number phoneFormat)

/-- Constructing `Phone(s)`: the `value` setter runs `is_phone_valid`
(which raises on invalid input) and then stores the string. -/
def mkPhone (s : String) : Except BookError String :=
  match is_phone_valid s with
  | Except.ok _ => Except.ok s
  | Except.error e => Except.error e

/-- Boolean form of the phone validity test. -/
def isValidPhone (s : String) : Bool := pyIsDigit s && s.length == 9

/-- A calendar date as Python's `datetime.date` holds it. -/
structure PyDate where
  year : Nat
  month : Nat
  day : Nat
deriving DecidableEq, Repr

/-- Gregorian leap-year test, as `calendar.isleap` / `datetime` use it. -/
def isLeap (y : Nat) : Bool := (y % 4 == 0 && y % 100 != 0) || y % 400 == 0

/-- One extra day in February of a leap year. -/
def leapOffset (y : Nat) : Nat := if isLeap y then 1 else 0

/-- Length of month `m` in year `y` (months outside 1..12 never arise for
valid dates). -/
def daysInMonth (y : Nat) (m : Nat) : Nat :=
  match m with
  | 2 => 28 + leapOffset y
  | 4 => 30
  | 6 => 30
  | 9 => 30
  | 11 => 30
  | _ => 31

/-- Days in year `y` strictly before month `m`. -/
def daysBeforeMonth (y : Nat) (m : Nat) : Nat :=
  match m with
  | 1 => 0
  | 2 => 31
  | 3 => 59 + leapOffset y
  | 4 => 90 + leapOffset y
  | 5 => 120 + leapOffset y
  | 6 => 151 + leapOffset y
  | 7 => 181 + leapOffset y
  | 8 => 212 + leapOffset y
  | 9 => 243 + leapOffset y
  | 10 => 273 + leapOffset y
  | 11 => 304 + leapOffset y
  | 12 => 334 + leapOffset y
  | _ => 0

/-- Days strictly before January 1 of year `y` counted from 0001-01-01
(Python's proleptic Gregorian ordinal base). -/
def daysBeforeYear (y : Nat) : Nat :=
  365 * (y - 1) + (y - 1) / 4 - (y - 1) / 100 + (y - 1) / 400

/-- The ranges `datetime.date(y, m, d)` accepts (`MINYEAR = 1`,
`MAXYEAR = 9999`). -/
def validDate (y m d : Nat) : Prop :=
  1 ≤ y ∧ y ≤ 9999 ∧ 1 ≤ m ∧ m ≤ 12 ∧ 1 ≤ d ∧ d ≤ daysInMonth y m

instance decValidDate (y m d : Nat) : Decidable (validDate y m d) := by
  unfold validDate
  infer_instance

/-- The `date(y, m, d)` constructor: a value on success, `none` where
Python raises `ValueError`. -/
def mkDate (y m d : Nat) : Option PyDate :=
  if validDate y m d then some (PyDate.mk y m d) else none

/-- Python `date.toordinal`: 0001-01-01 is day 1. -/
def toOrdinal (x : PyDate) : Nat :=
  daysBeforeYear x.year + daysBeforeMonth x.year x.month + x.day

/-- Numeric value of an ASCII digit character. -/
def digitVal (c : Char) : Nat := c.toNat - 48

/-- ASCII decimal digit test by code point. -/
def isAsciiDigit (c : Char) : Bool := 48 ≤ c.toNat && c.toNat ≤ 57

/-- `date.fromisoformat` on the documented `YYYY-MM-DD` shape: ten
characters, digits in the date positions, `-` separators, and a calendar
date in range; `none` where Python raises `ValueError`. -/
def parseISO (s : String) : Option PyDate :=
  match s.data with
  | [y1, y2, y3, y4, h1, m1, m2, h2, d1, d2] =>
    if isAsciiDigit y1 && isAsciiDigit y2 && isAsciiDigit y3 && isAsciiDigit y4 &&
        h1 == '-' && isAsciiDigit m1 && isAsciiDigit m2 && h2 == '-' &&
        isAsciiDigit d1 && isAsciiDigit d2 then
      mkDate (1000 * digitVal y1 + 100 * digitVal y2 + 10 * digitVal y3 + digitVal y4)
        (10 * digitVal m1 + digitVal m2) (10 * digitVal d1 + digitVal d2)
    else none
  | _ => none

/-- Low decimal digit of `n` as a character. -/
def digitChar (n : Nat) : Char := Char.ofNat (48 + n % 10)

/-- Four-digit zero-padded rendering (years up to 9999). -/
def pad4 (n : Nat) : List Char :=
  [digitChar (n / 1000), digitChar (n / 100), digitChar (n / 10), digitChar n]

/-- Two-digit zero-padded rendering. -/
def pad2 (n : Nat) : List Char := [digitChar (n / 10), digitChar n]

/-- Python `date.isoformat`. -/
def isoformat (x : PyDate) : String :=
  String.mk (pad4 x.year ++ '-' :: (pad2 x.month ++ '-' :: pad2 x.day))

/-- The `Birthday.value` setter: `None` clears the value, a parse failure
prints a warning and stores `None`, a successful parse stores the date.
Construction never raises. -/
def mkBirthday (s : Option String) : Option PyDate :=
  match s with
  | none => none
  | some str => parseISO str

/-- `Birthday.__str__`: the ISO form of the stored date, or the literal
string rendered from the Python `None` object. -/
def birthdayStr (b : Option PyDate) : String :=
  match b with
  | none => "None"
  | some x => isoformat x

/-- A `Record`: name, the list of phone values in storage order, and the
optional birthday date. -/
structure Record where
  name : String
  phones : List String
  birthday : Option PyDate
deriving DecidableEq, Repr

/-- Python's `<` on strings: lexicographic comparison of the character
code points. -/
def strLtChars : List Char → List Char → Bool
  | [], [] => false
  | [], _ :: _ => true
  | _ :: _, [] => false
  | a :: as, b :: bs =>
    if a.toNat < b.toNat then true
    else if b.toNat < a.toNat then false
    else strLtChars as bs

/-- Lexicographic strict order on strings. -/
def strLt (a b : String) : Bool := strLtChars a.data b.data

/-- Lexicographic order on strings. -/
def strLe (a b : String) : Bool := strLt a b || a == b

/-- The strict string order as a relation. -/
def strLtP (a b : String) : Prop := strLt a b = true

/-- The string order as a relation. -/
def strLeP (a b : String) : Prop := strLe a b = true

instance decStrLtP : DecidableRel strLtP := fun a b => by
  unfold strLtP
  infer_instance

instance decStrLeP : DecidableRel strLeP := fun a b => by
  unfold strLeP
  infer_instance

/-- Python `list.sort` on phone values: sorting by the lexicographic
string order. -/
def sortStrings (l : List String) : List String :=
  List.insertionSort strLeP l

/-- The list comprehension `[Phone(p) for p in ps]`: validates each string
in order and fails at the first invalid one, before any merge happens. -/
def validatePhones : List String → Except BookError (List String)
  | [] => Except.ok []
  | p :: rest =>
    match mkPhone p with
    | Except.error e => Except.error e
    | Except.ok v =>
      match validatePhones rest with
      | Except.error e => Except.error e
      | Except.ok vs => Except.ok (v :: vs)

/-- `Record.__init__`: deduplicate the argument tuple (`set(...)`),
validate every phone, sort, and wrap the birthday (which never raises).
`List.dedup` keeps one copy per distinct value; the set's iteration order
is immaterial because the list is sorted immediately afterwards. -/
def mkRecord (contact_name : String) (phone_numbs : List String) (birthday : Option String) :
    Except BookError Record :=
  match validatePhones phone_numbs.dedup with
  | Except.error e => Except.error e
  | Except.ok ps =>
    Except.ok (Record.mk contact_name (sortStrings ps) (mkBirthday birthday))

/-- `Record.add_phone`: deduplicate and validate the incoming batch (the
comprehension completes before `extend`, so a validation failure leaves
the stored list untouched), then merge, deduplicate across old and new,
and sort. -/
def add_phone (r : Record) (phone_numbs : List String) : Record × Option BookError :=
  match validatePhones phone_numbs.dedup with
  | Except.error e => (r, some e)
  | Except.ok new_phones =>
    (Record.mk r.name (sortStrings ((r.phones ++ new_phones).dedup)) r.birthday, none)

/-- `Record.remove_phone`: for each argument in order, validate it
(`Phone(phone)`) and `list.remove` its first occurrence; a missing value
raises out of the loop, leaving the earlier removals in place. -/
def remove_phone (r : Record) : List String → Record × Option BookError
  | [] => (r, none)
  | p :: rest =>
    match mkPhone p with
    | Except.error e => (r, some e)
    | Except.ok v =>
      if v ∈ r.phones then
        remove_phone (Record.mk r.name (r.phones.erase v) r.birthday) rest
      else (r, some BookError.notFound)

/-- `Record.change_phone`: `index` the old phone (validating it first),
`pop` it, `insert` the validated new phone and sort. `pop(index(old))`
removes the first occurrence, i.e. `erase`; the insertion position is
irrelevant to the sorted result, so the new value is consed in front.
When the new phone fails validation the pop has already happened. -/
def change_phone (r : Record) (old_phone new_phone : String) : Record × Option BookError :=
  match mkPhone old_phone with
  | Except.error e => (r, some e)
  | Except.ok ov =>
    if ov ∈ r.phones then
      match mkPhone new_phone with
      | Except.error e => (Record.mk r.name (r.phones.erase ov) r.birthday, some e)
      | Except.ok nv =>
        (Record.mk r.name (sortStrings (nv :: r.phones.erase ov)) r.birthday, none)
    else (r, some BookError.notFound)

/-- `Record.days_to_birthday` with `date.today()` made an explicit
argument: `None` when the birthday is absent, otherwise the difference to
this year's occurrence when non-negative and to next year's occurrence
otherwise. The `date(...)` constructor calls can raise. -/
def days_to_birthday (r : Record) (today : PyDate) : Except BookError (Option Int) :=
  match r.birthday with
  | none => Except.ok none
  | some b =>
    match mkDate today.year b.month b.day with
    | none => Except.error (BookError.badDate today.year b.month b.day)
    | some bty =>
      if 0 ≤ (toOrdinal bty : Int) - (toOrdinal today : Int) then
        Except.ok (some ((toOrdinal bty : Int) - (toOrdinal today : Int)))
      else
        match mkDate (today.year + 1) b.month b.day with
        | none => Except.error (BookError.badDate (today.year + 1) b.month b.day)
        | some bny => Except.ok (some ((toOrdinal bny : Int) - (toOrdinal today : Int)))

/-- Python `repr` of a list of strings, as `Record.__str__` embeds it. -/
def phonesRepr (ps : List String) : String :=
  "[" ++ String.intercalate ", " (ps.map (fun p => "\x27" ++ p ++ "\x27")) ++ "]"

/-- `Record.__str__`. -/
def recordStr (r : Record) : String :=
  "name: " ++ r.name ++ ", phones: " ++ phonesRepr r.phones ++ ", birthday: " ++
    birthdayStr r.birthday

/-- `str(self.name)`: `Name` defines no `__str__`, so the dataclass `repr`
is used (names without quote or backslash characters). -/
def nameRepr (r : Record) : String := "Name(value=\x27" ++ r.name ++ "\x27)"

/-- The join `" ".join(list)`. -/
def joinSpace : List String → String
  | [] => ""
  | [p] => p
  | p :: rest => p ++ " " ++ joinSpace rest

/-- `Record.get_search_string`. -/
def get_search_string (r : Record) : String :=
  nameRepr r ++ " " ++ joinSpace r.phones ++ " " ++ birthdayStr r.birthday

/-- `Record.get_phones` returns the stored phone values. -/
def get_phones (r : Record) : List String := r.phones

/-- Whether the pattern is an initial segment of the text. -/
def startsWithChars : List Char → List Char → Bool
  | [], _ => true
  | _ :: _, [] => false
  | p :: ps, c :: cs => p == c && startsWithChars ps cs

/-- Python substring containment `pat in text` over character lists. -/
def hasSubChars : List Char → List Char → Bool
  | pat, [] => pat.isEmpty
  | pat, c :: cs => startsWithChars pat (c :: cs) || hasSubChars pat cs

/-- An `AddressBook` (a `UserDict`): association list from contact name to
record, in insertion order, one entry per key. -/
structure AddressBook where
  data : List (String × Record)
deriving DecidableEq, Repr

/-- Assignment `self.data[k] = v` on a dict: overwrite in place if the key
exists, else append. -/
def dictInsert : List (String × Record) → String → Record → List (String × Record)
  | [], k, v => [(k, v)]
  | (k0, v0) :: rest, k, v =>
    if k0 = k then (k, v) :: rest else (k0, v0) :: dictInsert rest k v

/-- `AddressBook.add_record`. -/
def add_record (b : AddressBook) (r : Record) : AddressBook :=
  AddressBook.mk (dictInsert b.data r.name r)

/-- `AddressBook.search_for`: the dict comprehension keeping entries whose
search string contains the query. -/
def search_for (b : AddressBook) (query : String) : List (String × Record) :=
  b.data.filter (fun kv => hasSubChars query.data (get_search_string kv.snd).data)

/-- `list(self.data.keys())` followed by `sort`. -/
def sortedKeys (b : AddressBook) : List String :=
  sortStrings (b.data.map Prod.fst)

/-- The slicing loop of `AddressBook.iterator` with an explicit fuel that
bounds the number of iterations: successive `keys[count : count + N]`
slices. For a positive page size the fuel `l.length` used by `chunks` is
never exhausted. A page size of zero makes the Python generator loop
forever; the fuel then runs out instead, and every statement below
assumes a positive page size. -/
def chunksGo : Nat → Nat → List String → List (List String)
  | 0, _, _ => []
  | _ + 1, _, [] => []
  | fuel + 1, n, x :: xs => (x :: xs).take n :: chunksGo fuel n ((x :: xs).drop n)

/-- The pages of keys the generator slices out. -/
def chunks (n : Nat) (l : List String) : List (List String) := chunksGo l.length n l

/-- The `f-string` padding `{rec:8}`: minimum width 8, left aligned. -/
def padTo8 (s : String) : String := s ++ String.mk (List.replicate (8 - s.length) ' ')

/-- `self.data[rec]` for a key of the book (keys fed to the paginator come
from the dict, so the default branch is unreachable there). -/
def lookupRecord (b : AddressBook) (k : String) : Record :=
  match b.data.find? (fun kv => kv.fst == k) with
  | some kv => kv.snd
  | none => Record.mk "" [] none

/-- `removesuffix` of a final newline. -/
def removeNlSuffix (s : String) : String :=
  match s.data.getLast? with
  | some c => if c = '\n' then String.mk s.data.dropLast else s
  | none => s

/-- One page of `AddressBook.iterator`: the formatted lines of its keys
with the trailing newline removed. -/
def renderPage (b : AddressBook) (ks : List String) : String :=
  removeNlSuffix
    (String.join (ks.map (fun k => padTo8 k ++ " " ++ recordStr (lookupRecord b k) ++ " \n")))

/-- `AddressBook.iterator(N)` materialised: the finite list of pages the
generator yields, over the sorted keys. -/
def iterator (b : AddressBook) (n : Nat) : List String :=
  (chunks n (sortedKeys b)).map (renderPage b)

/-- Modelled from the spec: `pickle.dump` (the Python standard library is
not part of this repository) is an opaque injective serialization of the
whole object graph. `store_book_in_file` produces the file contents as a
flat number stream: entry count, then per entry the length-prefixed name,
the record name, the length-prefixed phone list and the tagged birthday. -/
def encStr (s : String) : List Nat := s.length :: s.data.map Char.toNat

/-- Length-prefixed list of strings. -/
def encStrs (ps : List String) : List Nat := ps.length :: (ps.map encStr).flatten

/-- Tagged optional date. -/
def encBirthday : Option PyDate → List Nat
  | none => [0]
  | some x => [1, x.year, x.month, x.day]

/-- Serialized form of one record. -/
def encRecord (r : Record) : List Nat := encStr r.name ++ encStrs r.phones ++ encBirthday r.birthday

/-- `AddressBook.store_book_in_file`: the serialized book (the written
file's contents). -/
def store_book_in_file (b : AddressBook) : List Nat :=
  b.data.length :: (b.data.map (fun kv => encStr kv.fst ++ encRecord kv.snd)).flatten

/-- Decoder for one length-prefixed string, returning the rest of the
stream. -/
def decStr : List Nat → Option (String × List Nat)
  | [] => none
  | n :: rest =>
    if n ≤ rest.length then some (String.mk ((rest.take n).map Char.ofNat), rest.drop n)
    else none

/-- Decoder for `k` consecutive strings. -/
def decStrs : Nat → List Nat → Option (List String × List Nat)
  | 0, l => some ([], l)
  | k + 1, l =>
    match decStr l with
    | none => none
    | some (s, l1) =>
      match decStrs k l1 with
      | none => none
      | some (ss, l2) => some (s :: ss, l2)

/-- Decoder for a tagged optional date. -/
def decBirthday : List Nat → Option (Option PyDate × List Nat)
  | 0 :: rest => some (none, rest)
  | 1 :: y :: m :: d :: rest => some (some (PyDate.mk y m d), rest)
  | _ => none

/-- Decoder for one record. -/
def decRecord (l : List Nat) : Option (Record × List Nat) :=
  match decStr l with
  | none => none
  | some (nm, l1) =>
    match l1 with
    | [] => none
    | c :: l2 =>
      match decStrs c l2 with
      | none => none
      | some (ps, l3) =>
        match decBirthday l3 with
        | none => none
        | some (bd, l4) => some (Record.mk nm ps bd, l4)

/-- Decoder for `k` book entries. -/
def decEntries : Nat → List Nat → Option (List (String × Record) × List Nat)
  | 0, l => some ([], l)
  | k + 1, l =>
    match decStr l with
    | none => none
    | some (key, l1) =>
      match decRecord l1 with
      | none => none
      | some (r, l2) =>
        match decEntries k l2 with
        | none => none
        | some (es, l3) => some ((key, r) :: es, l3)

/-- Modelled from the spec: `pickle.load` inverts `pickle.dump`.
`import_book_from_file` decodes a stored stream back into a book and
fails on corrupt data. -/
def import_book_from_file : List Nat → Option AddressBook
  | [] => none
  | n :: rest =>
    match decEntries n rest with
    | none => none
    | some (es, l1) => if l1.isEmpty then some (AddressBook.mk es) else none

/-- One phone-mutating call on a record, for stating the phone-list
invariant over operation sequences. -/
inductive PhoneOp where
  | add (ps : List String)
  | rem (ps : List String)
  | change (o n : String)
deriving DecidableEq, Repr

/-- The record state after one call (whether or not it raised). -/
def applyOp (r : Record) : PhoneOp → Record
  | PhoneOp.add ps => (add_phone r ps).fst
  | PhoneOp.rem ps => (remove_phone r ps).fst
  | PhoneOp.change o n => (change_phone r o n).fst

/-- The record state after a sequence of calls. -/
def runOps (r : Record) : List PhoneOp → Record
  | [] => r
  | op :: ops => runOps (applyOp r op) ops

/-- Whether an operation is a `change_phone` call. -/
def isChangeOp : PhoneOp → Bool
  | PhoneOp.change _ _ => true
  | _ => false

/-- The thirteen-record book the driver pages through with page size 6. -/
def demoBook : AddressBook :=
  AddressBook.mk
    [("Balin", Record.mk "Balin" [] none),
     ("Thorin", Record.mk "Thorin" [] none),
     ("Dwalin", Record.mk "Dwalin" [] none),
     ("Oin", Record.mk "Oin" [] none),
     ("Gloin", Record.mk "Gloin" [] none),
     ("Kili", Record.mk "Kili" [] none),
     ("Fili", Record.mk "Fili" [] none),
     ("Bifur", Record.mk "Bifur" [] none),
     ("Bofur", Record.mk "Bofur" [] none),
     ("Bombur", Record.mk "Bombur" [] none),
     ("Dori", Record.mk "Dori" [] none),
     ("Ori", Record.mk "Ori" [] none),
     ("Nori", Record.mk "Nori" [] none)]

/-! ### The lexicographic string order -/

theorem strExt {a b : String} (h : a.data = b.data) : a = b := congrArg String.mk h

theorem strLtChars_cons (a b : Char) (as bs : List Char) :
    strLtChars (a :: as) (b :: bs)
      = if a.toNat < b.toNat then true
        else if b.toNat < a.toNat then false else strLtChars as bs := rfl

theorem strLtChars_cons_iff {a b : Char} {as bs : List Char} :
    strLtChars (a :: as) (b :: bs) = true
      ↔ (a.toNat < b.toNat ∨ (a.toNat = b.toNat ∧ strLtChars as bs = true)) := by
  rw [strLtChars_cons]
  rcases Nat.lt_trichotomy a.toNat b.toNat with h | h | h
  · simp [h]
  · simp [h, Nat.lt_irrefl]
  · have h1 : ¬ a.toNat < b.toNat := by omega
    have h2 : ¬ a.toNat = b.toNat := by omega
    simp [h1, h, h2]

theorem strLtChars_irrefl : ∀ as, strLtChars as as = false := by
  intro as
  induction as with
  | nil => rfl
  | cons a as ih => rw [strLtChars_cons, if_neg (Nat.lt_irrefl _), if_neg (Nat.lt_irrefl _), ih]

theorem strLtChars_asymm : ∀ as bs, strLtChars as bs = true → strLtChars bs as = true → False := by
  intro as
  induction as with
  | nil =>
    intro bs h1 h2
    cases bs with
    | nil => simp [strLtChars] at h1
    | cons b bs => simp [strLtChars] at h2
  | cons a as ih =>
    intro bs h1 h2
    cases bs with
    | nil => simp [strLtChars] at h1
    | cons b bs =>
      rw [strLtChars_cons_iff] at h1 h2
      rcases h1 with h1 | ⟨he1, h1⟩
      · rcases h2 with h2 | ⟨he2, h2⟩ <;> omega
      · rcases h2 with h2 | ⟨he2, h2⟩
        · omega
        · exact ih bs h1 h2

theorem strLtChars_trans : ∀ as bs cs, strLtChars as bs = true → strLtChars bs cs = true →
    strLtChars as cs = true := by
  intro as
  induction as with
  | nil =>
    intro bs cs h1 h2
    cases bs with
    | nil => simp [strLtChars] at h1
    | cons b bs =>
      cases cs with
      | nil => simp [strLtChars] at h2
      | cons c cs => simp [strLtChars]
  | cons a as ih =>
    intro bs cs h1 h2
    cases bs with
    | nil => simp [strLtChars] at h1
    | cons b bs =>
      cases cs with
      | nil => simp [strLtChars] at h2
      | cons c cs =>
        rw [strLtChars_cons_iff] at h1 h2 ⊢
        rcases h1 with h1 | ⟨he1, h1⟩
        · rcases h2 with h2 | ⟨he2, h2⟩
          · left; omega
          · left; omega
        · rcases h2 with h2 | ⟨he2, h2⟩
          · left; omega
          · right; exact ⟨by omega, ih bs cs h1 h2⟩

theorem strLtChars_total : ∀ as bs, strLtChars as bs = true ∨ as = bs ∨ strLtChars bs as = true := by
  intro as
  induction as with
  | nil =>
    intro bs
    cases bs with
    | nil => exact Or.inr (Or.inl rfl)
    | cons b bs => exact Or.inl rfl
  | cons a as ih =>
    intro bs
    cases bs with
    | nil => exact Or.inr (Or.inr rfl)
    | cons b bs =>
      rcases Nat.lt_trichotomy a.toNat b.toNat with h | h | h
      · exact Or.inl (strLtChars_cons_iff.mpr (Or.inl h))
      · have hab : a = b := by rw [← Char.ofNat_toNat a, h, Char.ofNat_toNat]
        rcases ih bs with h' | h' | h'
        · exact Or.inl (strLtChars_cons_iff.mpr (Or.inr ⟨h, h'⟩))
        · exact Or.inr (Or.inl (by rw [hab, h']))
        · exact Or.inr (Or.inr (strLtChars_cons_iff.mpr (Or.inr ⟨h.symm, h'⟩)))
      · exact Or.inr (Or.inr (strLtChars_cons_iff.mpr (Or.inl h)))

theorem strLe_iff {a b : String} : strLe a b = true ↔ (strLt a b = true ∨ a = b) := by
  simp [strLe, Bool.or_eq_true]

instance : IsTotal String strLeP where
  total a b := by
    unfold strLeP
    rcases strLtChars_total a.data b.data with h | h | h
    · exact Or.inl (strLe_iff.mpr (Or.inl h))
    · exact Or.inl (strLe_iff.mpr (Or.inr (strExt h)))
    · exact Or.inr (strLe_iff.mpr (Or.inl h))

instance : IsTrans String strLeP where
  trans a b c hab hbc := by
    unfold strLeP at hab hbc ⊢
    rcases strLe_iff.mp hab with h1 | h1
    · rcases strLe_iff.mp hbc with h2 | h2
      · exact strLe_iff.mpr (Or.inl (strLtChars_trans _ _ _ h1 h2))
      · subst h2; exact strLe_iff.mpr (Or.inl h1)
    · subst h1; exact hbc

instance : IsAntisymm String strLeP where
  antisymm a b hab hba := by
    unfold strLeP at hab hba
    rcases strLe_iff.mp hab with h1 | h1
    · rcases strLe_iff.mp hba with h2 | h2
      · exact (strLtChars_asymm _ _ h1 h2).elim
      · exact h2.symm
    · exact h1

instance : IsTrans String strLtP where
  trans _ _ _ hab hbc := strLtChars_trans _ _ _ hab hbc

theorem strLtP_of_strLeP_ne {a b : String} (h : strLeP a b) (hne : a ≠ b) : strLtP a b := by
  unfold strLeP at h
  unfold strLtP
  rcases strLe_iff.mp h with h1 | h1
  · exact h1
  · exact absurd h1 hne

/-! ### Sorting helper lemmas -/

theorem sortStrings_sorted (l : List String) : List.Sorted strLeP (sortStrings l) :=
  List.sorted_insertionSort strLeP l

theorem sortStrings_perm (l : List String) : List.Perm (sortStrings l) l :=
  List.perm_insertionSort strLeP l

theorem sortStrings_mem {l : List String} {a : String} : a ∈ sortStrings l ↔ a ∈ l :=
  (sortStrings_perm l).mem_iff

theorem sortStrings_nodup {l : List String} (h : l.Nodup) : (sortStrings l).Nodup :=
  ((sortStrings_perm l).nodup_iff).mpr h

theorem sorted_strLtP_of_le_nodup {l : List String} (hs : List.Sorted strLeP l)
    (hn : l.Nodup) : List.Sorted strLtP l := by
  have := List.Pairwise.and hs hn
  exact this.imp (fun h => strLtP_of_strLeP_ne h.1 h.2)

theorem sortStrings_sorted_lt {l : List String} (h : l.Nodup) :
    List.Sorted strLtP (sortStrings l) :=
  sorted_strLtP_of_le_nodup (sortStrings_sorted l) (sortStrings_nodup h)

/-! ### Helper lemmas about phone validation -/

theorem mkPhone_ok_of_valid {s : String} (h : isValidPhone s = true) :
    mkPhone s = Except.ok s := by
  unfold mkPhone is_phone_valid
  unfold isValidPhone at h
  rw [if_pos h]

theorem mkPhone_error_of_invalid {s : String} (h : isValidPhone s = false) :
    mkPhone s = Except.error (BookError.validation s phoneFormat) := by
  unfold mkPhone is_phone_valid
  unfold isValidPhone at h
  rw [if_neg (by simp [h])]

theorem isValidPhone_iff (s : String) :
    isValidPhone s = true ↔ ((∀ c ∈ s.data, c.isDigit = true) ∧ s.length = 9) := by
  unfold isValidPhone pyIsDigit
  simp only [Bool.and_eq_true, Bool.not_eq_true', beq_iff_eq, List.all_eq_true]
  constructor
  · intro h
    exact ⟨h.1.2, h.2⟩
  · intro h
    refine ⟨⟨?_, h.1⟩, h.2⟩
    have hd : s.data.length = 9 := h.2
    have : s ≠ "" := by
      intro he
      rw [he] at hd
      simp at hd
    rw [Bool.eq_false_iff]
    simpa [String.isEmpty_iff] using this

/-- The claim of C1: constructing a phone succeeds with the given value
exactly for 9-character decimal digit strings, and otherwise fails with a
validation error carrying the offending string and the format hint. -/
theorem phone_construction_spec (s : String) :
    (mkPhone s = Except.ok s ↔ ((∀ c ∈ s.data, c.isDigit = true) ∧ s.length = 9)) ∧
    (mkPhone s = Except.ok s ∨
      mkPhone s = Except.error (BookError.validation s phoneFormat)) := by
  by_cases h : isValidPhone s = true
  · rw [mkPhone_ok_of_valid h]
    exact ⟨iff_of_true rfl ((isValidPhone_iff s).mp h), Or.inl rfl⟩
  · have h' : isValidPhone s = false := by
      revert h
      cases isValidPhone s <;> simp
    rw [mkPhone_error_of_invalid h']
    constructor
    · refine iff_of_false (by simp) ?_
      intro hr
      rw [(isValidPhone_iff s).mpr hr] at h'
      cases h'
    · exact Or.inr rfl

theorem phone_construction_spec_witness :
    (mkPhone "123123123" = Except.ok "123123123"
      ↔ ((∀ c ∈ "123123123".data, c.isDigit = true) ∧ "123123123".length = 9)) ∧
    (mkPhone "123123123" = Except.ok "123123123" ∨
      mkPhone "123123123" = Except.error (BookError.validation "123123123" phoneFormat)) :=
  phone_construction_spec "123123123"

/-! ### Birthday parsing and rendering -/

theorem digitChar_eq {c : Char} {n : Nat} (h : 48 + n % 10 = c.toNat) :
    digitChar n = c := by
  unfold digitChar
  rw [h, Char.ofNat_toNat]

/-- A successfully parsed ISO string renders back to itself. -/
theorem isoformat_parseISO {s : String} {x : PyDate} (h : parseISO s = some x) :
    isoformat x = s := by
  unfold parseISO at h
  split at h
  next y1 y2 y3 y4 h1 m1 m2 h2 d1 d2 heq =>
    split at h
    next hcond =>
      unfold mkDate at h
      split at h
      next hvalid =>
        injection h with hx
        subst hx
        simp only [isAsciiDigit, Bool.and_eq_true, beq_iff_eq, decide_eq_true_eq] at hcond
        obtain ⟨⟨⟨⟨⟨⟨⟨⟨⟨hy1, hy2⟩, hy3⟩, hy4⟩, hh1⟩, hm1⟩, hm2⟩, hh2⟩, hd1⟩, hd2⟩ := hcond
        have e1 : digitChar ((1000 * digitVal y1 + 100 * digitVal y2 + 10 * digitVal y3 +
            digitVal y4) / 1000) = y1 := by
          apply digitChar_eq
          simp only [digitVal]
          omega
        have e2 : digitChar ((1000 * digitVal y1 + 100 * digitVal y2 + 10 * digitVal y3 +
            digitVal y4) / 100) = y2 := by
          apply digitChar_eq
          simp only [digitVal]
          omega
        have e3 : digitChar ((1000 * digitVal y1 + 100 * digitVal y2 + 10 * digitVal y3 +
            digitVal y4) / 10) = y3 := by
          apply digitChar_eq
          simp only [digitVal]
          omega
        have e4 : digitChar (1000 * digitVal y1 + 100 * digitVal y2 + 10 * digitVal y3 +
            digitVal y4) = y4 := by
          apply digitChar_eq
          simp only [digitVal]
          omega
        have e5 : digitChar ((10 * digitVal m1 + digitVal m2) / 10) = m1 := by
          apply digitChar_eq
          simp only [digitVal]
          omega
        have e6 : digitChar (10 * digitVal m1 + digitVal m2) = m2 := by
          apply digitChar_eq
          simp only [digitVal]
          omega
        have e7 : digitChar ((10 * digitVal d1 + digitVal d2) / 10) = d1 := by
          apply digitChar_eq
          simp only [digitVal]
          omega
        have e8 : digitChar (10 * digitVal d1 + digitVal d2) = d2 := by
          apply digitChar_eq
          simp only [digitVal]
          omega
        have hs : s = String.mk s.data := rfl
        rw [hs, heq]
        unfold isoformat pad4 pad2
        simp only [List.cons_append, List.nil_append]
        rw [e1, e2, e3, e4, e5, e6, e7, e8, hh1, hh2]
      next => simp at h
    next => simp at h
  next => simp at h

/-- The claim of C4: constructing a birthday from a string never raises;
a string the date parser accepts renders back as itself, any other string
yields the absent value which renders as the literal string None. -/
theorem birthday_render_spec (d : String) :
    birthdayStr (mkBirthday (some d)) = if (parseISO d).isSome then d else "None" := by
  unfold mkBirthday
  cases h : parseISO d with
  | none => simp [birthdayStr, h]
  | some x => simp [birthdayStr, h, isoformat_parseISO h]

theorem birthday_render_spec_witness :
    (birthdayStr (mkBirthday (some "1988-12-01"))
        = if (parseISO "1988-12-01").isSome then "1988-12-01" else "None") ∧
    (birthdayStr (mkBirthday (some "hhhdj-3--43-"))
        = if (parseISO "hhhdj-3--43-").isSome then "hhhdj-3--43-" else "None") ∧
    birthdayStr (mkBirthday (some "1988-12-01")) = "1988-12-01" ∧
    birthdayStr (mkBirthday (some "hhhdj-3--43-")) = "None" :=
  ⟨birthday_render_spec "1988-12-01", birthday_render_spec "hhhdj-3--43-", rfl, rfl⟩

/-! ### Removal and change of phones: error behavior -/

/-- The amended claim of C6: arguments are processed left to right, so
when the first argument is a validly formatted absent number the call
raises the not-found error with the record unchanged (in particular every
single-argument call on an absent number). -/
theorem remove_phone_absent_spec (r : Record) (p : String) (rest : List String)
    (hv : isValidPhone p = true) (hm : p ∉ r.phones) :
    remove_phone r (p :: rest) = (r, some BookError.notFound) := by
  simp [remove_phone, mkPhone_ok_of_valid hv, hm]

theorem remove_phone_absent_spec_witness :
    isValidPhone "333333333" = true ∧
    "333333333" ∉ (Record.mk "X" ["111111111"] none).phones ∧
    remove_phone (Record.mk "X" ["111111111"] none) ["333333333"]
      = (Record.mk "X" ["111111111"] none, some BookError.notFound) :=
  ⟨by decide, by decide,
    remove_phone_absent_spec (Record.mk "X" ["111111111"] none) "333333333" []
      (by decide) (by decide)⟩

/-- Counterexample to C6 as stated: a call that removes a present number
before hitting an absent one raises the not-found error but leaves the
phone list changed. -/
theorem remove_phone_mutation_cex :
    remove_phone (Record.mk "X" ["111111111", "222222222"] none)
        ["111111111", "333333333"]
      = (Record.mk "X" ["222222222"] none, some BookError.notFound) ∧
    (Record.mk "X" ["222222222"] none).phones
      ≠ (Record.mk "X" ["111111111", "222222222"] none).phones := by
  exact ⟨by decide, by decide⟩

/-- The claim of C10: a badly formatted string given to `remove_phone` or
as the old number of `change_phone` is rejected by phone validation before
any membership check or mutation: the validation error is raised and the
record is unchanged. -/
theorem invalid_arg_validation_spec (r : Record) (s t : String) (rest : List String)
    (h : isValidPhone s = false) :
    remove_phone r (s :: rest) = (r, some (BookError.validation s phoneFormat)) ∧
    change_phone r s t = (r, some (BookError.validation s phoneFormat)) := by
  constructor
  · unfold remove_phone
    rw [mkPhone_error_of_invalid h]
  · unfold change_phone
    rw [mkPhone_error_of_invalid h]

theorem invalid_arg_validation_spec_witness :
    isValidPhone "12a" = false ∧
    remove_phone (Record.mk "X" ["111111111"] none) ["12a"]
      = (Record.mk "X" ["111111111"] none, some (BookError.validation "12a" phoneFormat)) ∧
    change_phone (Record.mk "X" ["111111111"] none) "12a" "222222222"
      = (Record.mk "X" ["111111111"] none, some (BookError.validation "12a" phoneFormat)) := by
  have h := invalid_arg_validation_spec (Record.mk "X" ["111111111"] none)
    "12a" "222222222" [] (by decide)
  exact ⟨by decide, h.1, h.2⟩

/-- Counterexample to C2 as stated: a successful `change_phone` whose new
number is already stored leaves a duplicate, so the phone list is no
longer strictly ascending. -/
theorem phones_invariant_cex :
    mkRecord "X" ["111111111", "222222222"] none
      = Except.ok (Record.mk "X" ["111111111", "222222222"] none) ∧
    change_phone (Record.mk "X" ["111111111", "222222222"] none) "111111111" "222222222"
      = (Record.mk "X" ["222222222", "222222222"] none, none) ∧
    ¬ (Record.mk "X" ["222222222", "222222222"] none).phones.Nodup := by
  refine ⟨rfl, by decide, by decide⟩

/-! ### Batch validation -/

theorem mkPhone_ok_eq {p v : String} (h : mkPhone p = Except.ok v) : v = p := by
  unfold mkPhone at h
  cases hv : is_phone_valid p with
  | ok b => rw [hv] at h; injection h with h; exact h.symm
  | error e => rw [hv] at h; cases h

theorem validatePhones_ok_id : ∀ {ps vs : List String},
    validatePhones ps = Except.ok vs → vs = ps := by
  intro ps
  induction ps with
  | nil =>
    intro vs h
    unfold validatePhones at h
    injection h with h
    exact h.symm
  | cons p rest ih =>
    intro vs h
    unfold validatePhones at h
    cases hp : mkPhone p with
    | error e => rw [hp] at h; cases h
    | ok v =>
      rw [hp] at h
      cases hr : validatePhones rest with
      | error e => rw [hr] at h; cases h
      | ok vs' =>
        rw [hr] at h
        injection h with h
        rw [← h, mkPhone_ok_eq hp, ih hr]

theorem validatePhones_ok_of_valid : ∀ {ps : List String},
    (∀ p ∈ ps, isValidPhone p = true) → validatePhones ps = Except.ok ps := by
  intro ps
  induction ps with
  | nil => intro _; rfl
  | cons p rest ih =>
    intro h
    unfold validatePhones
    rw [mkPhone_ok_of_valid (h p (by simp)), ih (fun q hq => h q (by simp [hq]))]

theorem validatePhones_error_of_invalid : ∀ {ps : List String},
    (∃ p ∈ ps, isValidPhone p = false) →
    ∃ s, s ∈ ps ∧ isValidPhone s = false ∧
      validatePhones ps = Except.error (BookError.validation s phoneFormat) := by
  intro ps
  induction ps with
  | nil =>
    rintro ⟨p, hp, -⟩
    cases hp
  | cons p rest ih =>
    rintro ⟨q, hq, hqv⟩
    by_cases hp : isValidPhone p = true
    · have hq' : q ∈ rest := by
        rcases List.mem_cons.mp hq with rfl | h
        · rw [hp] at hqv; cases hqv
        · exact h
      obtain ⟨s, hs, hsv, he⟩ := ih ⟨q, hq', hqv⟩
      refine ⟨s, by simp [hs], hsv, ?_⟩
      simp [validatePhones, mkPhone_ok_of_valid hp, he]
    · have hp' : isValidPhone p = false := by
        cases h : isValidPhone p
        · rfl
        · exact absurd h hp
      refine ⟨p, by simp, hp', ?_⟩
      simp [validatePhones, mkPhone_error_of_invalid hp']

theorem mkRecord_ok_phones {nm : String} {ps : List String} {bd : Option String} {r : Record}
    (h : mkRecord nm ps bd = Except.ok r) : r.phones = sortStrings ps.dedup := by
  unfold mkRecord at h
  cases hv : validatePhones ps.dedup with
  | error e => rw [hv] at h; cases h
  | ok vs =>
    rw [hv] at h
    injection h with h
    rw [← h, validatePhones_ok_id hv]

/-! ### The claim of C5 -/

theorem add_phone_invalid {r : Record} {ps : List String}
    (h : ∃ p ∈ ps, isValidPhone p = false) :
    (add_phone r ps).fst = r ∧
    ∃ s, s ∈ ps ∧ isValidPhone s = false ∧
      (add_phone r ps).snd = some (BookError.validation s phoneFormat) := by
  have h' : ∃ p ∈ ps.dedup, isValidPhone p = false := by
    obtain ⟨p, hp, hv⟩ := h
    exact ⟨p, List.mem_dedup.mpr hp, hv⟩
  obtain ⟨s, hs, hsv, he⟩ := validatePhones_error_of_invalid h'
  refine ⟨?_, s, List.mem_dedup.mp hs, hsv, ?_⟩
  · simp [add_phone, he]
  · simp [add_phone, he]

theorem add_phone_valid {r : Record} {ps : List String}
    (h : ∀ p ∈ ps, isValidPhone p = true) :
    (add_phone r ps).snd = none ∧
    (add_phone r ps).fst.phones = sortStrings ((r.phones ++ ps.dedup).dedup) := by
  have he : validatePhones ps.dedup = Except.ok ps.dedup :=
    validatePhones_ok_of_valid (fun q hq => h q (List.mem_dedup.mp hq))
  constructor
  · simp [add_phone, he]
  · simp [add_phone, he]

/-- The claim of C5: a batch with an invalid phone makes `add_phone` raise
a validation error with the record unchanged (no partial mutation); a
fully valid batch succeeds and merges with set semantics, each value kept
exactly once. -/
theorem add_phone_spec (r : Record) (ps : List String) :
    ((∃ p ∈ ps, isValidPhone p = false) →
      (add_phone r ps).fst = r ∧
      ∃ s, s ∈ ps ∧ isValidPhone s = false ∧
        (add_phone r ps).snd = some (BookError.validation s phoneFormat)) ∧
    ((∀ p ∈ ps, isValidPhone p = true) →
      (add_phone r ps).snd = none ∧
      (add_phone r ps).fst.phones.Nodup ∧
      (∀ v, v ∈ (add_phone r ps).fst.phones ↔ (v ∈ r.phones ∨ v ∈ ps))) := by
  constructor
  · exact fun h => add_phone_invalid h
  · intro h
    obtain ⟨h1, h2⟩ := add_phone_valid (r := r) h
    refine ⟨h1, ?_, ?_⟩
    · rw [h2]
      exact sortStrings_nodup (List.nodup_dedup _)
    · intro v
      rw [h2, sortStrings_mem, List.mem_dedup, List.mem_append, List.mem_dedup]

theorem add_phone_spec_witness :
    ((add_phone (Record.mk "X" ["111111111"] none) ["12a"]).fst
        = Record.mk "X" ["111111111"] none ∧
      ∃ s, s ∈ ["12a"] ∧ isValidPhone s = false ∧
        (add_phone (Record.mk "X" ["111111111"] none) ["12a"]).snd
          = some (BookError.validation s phoneFormat)) ∧
    ((add_phone (Record.mk "X" ["111111111"] none) ["333333333", "333333333"]).snd = none ∧
      (add_phone (Record.mk "X" ["111111111"] none) ["333333333", "333333333"]).fst.phones.Nodup ∧
      (∀ v, v ∈ (add_phone (Record.mk "X" ["111111111"] none)
          ["333333333", "333333333"]).fst.phones
        ↔ (v ∈ (Record.mk "X" ["111111111"] none).phones ∨ v ∈ ["333333333", "333333333"]))) :=
  ⟨(add_phone_spec (Record.mk "X" ["111111111"] none) ["12a"]).1
      ⟨"12a", by simp, by decide⟩,
    (add_phone_spec (Record.mk "X" ["111111111"] none) ["333333333", "333333333"]).2
      (by decide)⟩

/-! ### The amended claim of C2 -/

theorem strLtP_ne {a b : String} (h : strLtP a b) : a ≠ b := by
  intro he
  subst he
  unfold strLtP strLt at h
  rw [strLtChars_irrefl] at h
  cases h

theorem erase_pairwise {R : String → String → Prop} {l : List String} (h : l.Pairwise R)
    (v : String) : (l.erase v).Pairwise R :=
  List.Pairwise.sublist (List.erase_sublist v l) h

theorem add_phone_fst_sorted {r : Record} {ps : List String}
    (h : List.Sorted strLeP r.phones) :
    List.Sorted strLeP (add_phone r ps).fst.phones := by
  cases hv : validatePhones ps.dedup with
  | error e => simpa [add_phone, hv] using h
  | ok vs => simpa [add_phone, hv] using sortStrings_sorted ((r.phones ++ vs).dedup)

theorem add_phone_fst_sorted_lt {r : Record} {ps : List String}
    (h : List.Sorted strLtP r.phones) :
    List.Sorted strLtP (add_phone r ps).fst.phones := by
  cases hv : validatePhones ps.dedup with
  | error e => simpa [add_phone, hv] using h
  | ok vs => simpa [add_phone, hv] using sortStrings_sorted_lt (List.nodup_dedup (r.phones ++ vs))

theorem remove_phone_fst_pairwise {R : String → String → Prop} :
    ∀ (ps : List String) (r : Record), r.phones.Pairwise R →
      (remove_phone r ps).fst.phones.Pairwise R := by
  intro ps
  induction ps with
  | nil => exact fun r h => h
  | cons p rest ih =>
    intro r h
    cases hp : mkPhone p with
    | error e => simpa [remove_phone, hp] using h
    | ok v =>
      by_cases hm : v ∈ r.phones
      · have := ih (Record.mk r.name (r.phones.erase v) r.birthday) (erase_pairwise h v)
        simpa [remove_phone, hp, hm] using this
      · simpa [remove_phone, hp, hm] using h

theorem change_phone_fst_sorted {r : Record} {o n : String}
    (h : List.Sorted strLeP r.phones) :
    List.Sorted strLeP (change_phone r o n).fst.phones := by
  cases ho : mkPhone o with
  | error e => simpa [change_phone, ho] using h
  | ok ov =>
    by_cases hm : ov ∈ r.phones
    · cases hn : mkPhone n with
      | error e => simpa [change_phone, ho, hm, hn] using erase_pairwise h ov
      | ok nv =>
        simpa [change_phone, ho, hm, hn] using sortStrings_sorted (nv :: r.phones.erase ov)
    · simpa [change_phone, ho, hm] using h

theorem runOps_sorted_le : ∀ (ops : List PhoneOp) (r : Record),
    List.Sorted strLeP r.phones → List.Sorted strLeP (runOps r ops).phones := by
  intro ops
  induction ops with
  | nil => exact fun r h => h
  | cons op ops ih =>
    intro r h
    cases op with
    | add ps => exact ih _ (add_phone_fst_sorted h)
    | rem ps => exact ih _ (remove_phone_fst_pairwise ps r h)
    | change o n => exact ih _ (change_phone_fst_sorted h)

theorem runOps_sorted_lt : ∀ (ops : List PhoneOp) (r : Record),
    (∀ op ∈ ops, isChangeOp op = false) →
    List.Sorted strLtP r.phones → List.Sorted strLtP (runOps r ops).phones := by
  intro ops
  induction ops with
  | nil => exact fun r _ h => h
  | cons op ops ih =>
    intro r hops h
    cases op with
    | add ps => exact ih _ (fun o ho => hops o (by simp [ho])) (add_phone_fst_sorted_lt h)
    | rem ps => exact ih _ (fun o ho => hops o (by simp [ho])) (remove_phone_fst_pairwise ps r h)
    | change o n =>
      have hc := hops (PhoneOp.change o n) (by simp)
      simp [isChangeOp] at hc

/-- The amended claim of C2: starting from a constructed record, the phone
list stays sorted in non-decreasing lexicographic order after any sequence
of phone operations; it is moreover strictly ascending with no duplicates
after any sequence that contains no `change_phone` (a successful
`change_phone` whose new number is already stored introduces a duplicate,
see the counterexample). -/
theorem phones_order_spec (nm : String) (ps : List String) (bd : Option String) (r : Record)
    (h : mkRecord nm ps bd = Except.ok r) (ops : List PhoneOp) :
    List.Sorted strLeP (runOps r ops).phones ∧
    ((∀ op ∈ ops, isChangeOp op = false) →
      List.Sorted strLtP (runOps r ops).phones ∧ (runOps r ops).phones.Nodup) := by
  have h0 : r.phones = sortStrings ps.dedup := mkRecord_ok_phones h
  have hlt : List.Sorted strLtP r.phones := by
    rw [h0]
    exact sortStrings_sorted_lt (List.nodup_dedup ps)
  have hle : List.Sorted strLeP r.phones := by
    rw [h0]
    exact sortStrings_sorted ps.dedup
  refine ⟨runOps_sorted_le ops r hle, fun hops => ?_⟩
  have hs := runOps_sorted_lt ops r hops hlt
  exact ⟨hs, hs.imp strLtP_ne⟩

theorem phones_order_spec_witness :
    mkRecord "A" ["222222222", "111111111"] none
      = Except.ok (Record.mk "A" ["111111111", "222222222"] none) ∧
    (List.Sorted strLeP
        (runOps (Record.mk "A" ["111111111", "222222222"] none)
          [PhoneOp.add ["333333333"], PhoneOp.rem ["111111111"]]).phones ∧
      ((∀ op ∈ [PhoneOp.add ["333333333"], PhoneOp.rem ["111111111"]], isChangeOp op = false) →
        List.Sorted strLtP
          (runOps (Record.mk "A" ["111111111", "222222222"] none)
            [PhoneOp.add ["333333333"], PhoneOp.rem ["111111111"]]).phones ∧
        (runOps (Record.mk "A" ["111111111", "222222222"] none)
          [PhoneOp.add ["333333333"], PhoneOp.rem ["111111111"]]).phones.Nodup)) :=
  ⟨rfl,
    phones_order_spec "A" ["222222222", "111111111"] none
      (Record.mk "A" ["111111111", "222222222"] none) rfl
      [PhoneOp.add ["333333333"], PhoneOp.rem ["111111111"]]⟩

/-! ### The claim of C3: persistence round trip -/

theorem decStr_encStr (s : String) (rest : List Nat) :
    decStr (encStr s ++ rest) = some (s, rest) := by
  have hlen : (s.data.map Char.toNat).length = s.length := by
    rw [List.length_map]
    cases s
    rfl
  have hc : s.length ≤ (s.data.map Char.toNat ++ rest).length := by
    rw [List.length_append, hlen]
    exact Nat.le_add_right _ _
  show decStr ((s.length :: s.data.map Char.toNat) ++ rest) = some (s, rest)
  rw [List.cons_append, decStr, if_pos hc, List.take_left' hlen, List.drop_left' hlen,
    List.map_map]
  have hmap : s.data.map (Char.ofNat ∘ Char.toNat) = s.data := by
    simp [Function.comp_def]
  rw [hmap]

theorem decStrs_enc (ps : List String) (rest : List Nat) :
    decStrs ps.length ((ps.map encStr).flatten ++ rest) = some (ps, rest) := by
  induction ps with
  | nil => rfl
  | cons p tl ih =>
    rw [List.map_cons, List.flatten_cons, List.append_assoc, List.length_cons]
    rw [decStrs, decStr_encStr]
    dsimp only
    rw [ih]

theorem decBirthday_enc (b : Option PyDate) (rest : List Nat) :
    decBirthday (encBirthday b ++ rest) = some (b, rest) := by
  cases b <;> rfl

theorem decRecord_enc (r : Record) (rest : List Nat) :
    decRecord (encRecord r ++ rest) = some (r, rest) := by
  rw [encRecord, encStrs]
  rw [List.append_assoc, List.append_assoc, List.cons_append]
  unfold decRecord
  rw [decStr_encStr]
  dsimp only
  rw [decStrs_enc]
  dsimp only
  rw [decBirthday_enc]

theorem decEntries_enc (es : List (String × Record)) (rest : List Nat) :
    decEntries es.length
        ((es.map (fun kv => encStr kv.fst ++ encRecord kv.snd)).flatten ++ rest)
      = some (es, rest) := by
  induction es with
  | nil => rfl
  | cons kv tl ih =>
    obtain ⟨k, rc⟩ := kv
    rw [List.map_cons, List.flatten_cons, List.length_cons, List.append_assoc]
    rw [decEntries]
    dsimp only
    rw [List.append_assoc, decStr_encStr]
    dsimp only
    rw [decRecord_enc]
    dsimp only
    rw [ih]

/-- The claim of C3: reading back a stored book reproduces it exactly,
with the same keys and for each key the same name, phone list (same
order) and birthday. -/
theorem save_load_roundtrip (b : AddressBook) :
    import_book_from_file (store_book_in_file b) = some b := by
  unfold store_book_in_file import_book_from_file
  have h := decEntries_enc b.data []
  rw [List.append_nil] at h
  simp [h]

theorem save_load_roundtrip_witness :
    import_book_from_file
        (store_book_in_file
          (AddressBook.mk
            [("Bilbo", Record.mk "Bilbo" ["123123123"] (some (PyDate.mk 1988 12 1)))]))
      = some (AddressBook.mk
          [("Bilbo", Record.mk "Bilbo" ["123123123"] (some (PyDate.mk 1988 12 1)))]) :=
  save_load_roundtrip
    (AddressBook.mk [("Bilbo", Record.mk "Bilbo" ["123123123"] (some (PyDate.mk 1988 12 1)))])

/-! ### The claim of C9: substring search -/

theorem strData_append (a b : String) : (a ++ b).data = a.data ++ b.data := by
  cases a
  cases b
  rfl

theorem hasSubChars_nil : ∀ l : List Char, hasSubChars [] l = true := by
  intro l
  cases l with
  | nil => rfl
  | cons c cs => rfl

theorem startsWithChars_append (p rest : List Char) : startsWithChars p (p ++ rest) = true := by
  induction p with
  | nil => rfl
  | cons a as ih => simp [startsWithChars, ih]

theorem hasSubChars_of_split (pat : List Char) : ∀ u v : List Char,
    hasSubChars pat (u ++ (pat ++ v)) = true := by
  intro u
  induction u with
  | nil =>
    intro v
    cases pat with
    | nil => exact hasSubChars_nil _
    | cons a as =>
      show hasSubChars (a :: as) ((a :: as) ++ v) = true
      rw [List.cons_append]
      show (startsWithChars (a :: as) (a :: (as ++ v)) || _) = true
      rw [← List.cons_append, startsWithChars_append]
      rfl
  | cons c u ih =>
    intro v
    rw [List.cons_append]
    show (startsWithChars pat (c :: (u ++ (pat ++ v))) || hasSubChars pat (u ++ (pat ++ v)))
      = true
    rw [ih v, Bool.or_true]

theorem startsWithChars_sound : ∀ pat s : List Char,
    startsWithChars pat s = true → ∃ t, s = pat ++ t := by
  intro pat
  induction pat with
  | nil => exact fun s _ => ⟨s, rfl⟩
  | cons p ps ih =>
    intro s h
    cases s with
    | nil => cases h
    | cons c cs =>
      rw [startsWithChars, Bool.and_eq_true, beq_iff_eq] at h
      obtain ⟨t, ht⟩ := ih cs h.2
      exact ⟨t, by rw [h.1, ht, List.cons_append]⟩

theorem hasSubChars_sound : ∀ pat s : List Char,
    hasSubChars pat s = true → ∃ u v, s = u ++ (pat ++ v) := by
  intro pat s
  induction s with
  | nil =>
    intro h
    rw [hasSubChars] at h
    have : pat = [] := by
      cases pat with
      | nil => rfl
      | cons a as => cases h
    exact ⟨[], [], by rw [this]; rfl⟩
  | cons c cs ih =>
    intro h
    rw [hasSubChars, Bool.or_eq_true] at h
    rcases h with h | h
    · obtain ⟨t, ht⟩ := startsWithChars_sound pat (c :: cs) h
      exact ⟨[], t, by rw [ht]; rfl⟩
    · obtain ⟨u, v, huv⟩ := ih h
      exact ⟨c :: u, v, by rw [huv, List.cons_append]⟩

theorem hasSubChars_extend (pat s u v : List Char) (h : hasSubChars pat s = true) :
    hasSubChars pat (u ++ (s ++ v)) = true := by
  obtain ⟨x, y, hxy⟩ := hasSubChars_sound pat s h
  have h2 := hasSubChars_of_split pat (u ++ x) (y ++ v)
  rw [hxy]
  simpa [List.append_assoc] using h2

theorem joinSpace_split {p : String} : ∀ {ps : List String}, p ∈ ps →
    ∃ u v, (joinSpace ps).data = u ++ (p.data ++ v) := by
  intro ps
  induction ps with
  | nil => intro h; cases h
  | cons q tl ih =>
    intro h
    rcases List.mem_cons.mp h with rfl | hmem
    · cases tl with
      | nil => exact ⟨[], [], by simp [joinSpace]⟩
      | cons r tl' =>
        refine ⟨[], (" " ++ joinSpace (r :: tl')).data, ?_⟩
        show (p ++ " " ++ joinSpace (r :: tl')).data = [] ++ (p.data ++ _)
        rw [strData_append, strData_append, strData_append, List.nil_append,
          List.append_assoc]
    · obtain ⟨u, v, huv⟩ := ih hmem
      cases tl with
      | nil => cases hmem
      | cons r tl' =>
        refine ⟨(q ++ " ").data ++ u, v, ?_⟩
        show (q ++ " " ++ joinSpace (r :: tl')).data = _
        rw [strData_append, huv, List.append_assoc]

/-- The claim of C9: the empty query returns every entry; an entry is
returned exactly when its search string contains the query as a
case-sensitive substring; in particular a query that is a substring of a
stored phone number returns that record under its key. -/
theorem search_for_spec (b : AddressBook) (q : String) :
    search_for b "" = b.data ∧
    (∀ kv, kv ∈ search_for b q
      ↔ (kv ∈ b.data ∧ hasSubChars q.data (get_search_string kv.snd).data = true)) ∧
    (∀ k r p, (k, r) ∈ b.data → p ∈ r.phones → hasSubChars q.data p.data = true →
      (k, r) ∈ search_for b q) := by
  refine ⟨?_, ?_, ?_⟩
  · apply List.filter_eq_self.mpr
    intro kv _
    exact hasSubChars_nil _
  · intro kv
    exact List.mem_filter
  · intro k r p hkr hp hq
    apply List.mem_filter.mpr
    refine ⟨hkr, ?_⟩
    show hasSubChars q.data (get_search_string r).data = true
    obtain ⟨u, v, huv⟩ := joinSpace_split hp
    have hj : hasSubChars q.data (joinSpace r.phones).data = true := by
      rw [huv]
      exact hasSubChars_extend _ _ _ _ hq
    have hw : (get_search_string r).data
        = (nameRepr r ++ " ").data ++ ((joinSpace r.phones).data
          ++ (" ".data ++ (birthdayStr r.birthday).data)) := by
      rw [get_search_string]
      rw [strData_append, strData_append, strData_append, strData_append,
        List.append_assoc, List.append_assoc]
    rw [hw]
    exact hasSubChars_extend _ _ _ _ hj

theorem search_for_spec_witness :
    search_for (AddressBook.mk [("Bilbo", Record.mk "Bilbo" ["123123123"] none)]) ""
      = [("Bilbo", Record.mk "Bilbo" ["123123123"] none)] ∧
    ("Bilbo", Record.mk "Bilbo" ["123123123"] none)
      ∈ search_for (AddressBook.mk [("Bilbo", Record.mk "Bilbo" ["123123123"] none)]) "2312" := by
  constructor
  · exact (search_for_spec (AddressBook.mk [("Bilbo", Record.mk "Bilbo" ["123123123"] none)])
      "2312").1
  · exact (search_for_spec (AddressBook.mk [("Bilbo", Record.mk "Bilbo" ["123123123"] none)])
      "2312").2.2 "Bilbo" (Record.mk "Bilbo" ["123123123"] none) "123123123"
      (by simp) (by simp) (by decide)

/-! ### The claim of C8: pagination -/

theorem chunksGo_join : ∀ (fuel N : Nat), 0 < N → ∀ l : List String, l.length ≤ fuel →
    (chunksGo fuel N l).flatten = l := by
  intro fuel
  induction fuel with
  | zero =>
    intro N hN l hl
    have h : l = [] := List.length_eq_zero.mp (by omega)
    subst h
    rfl
  | succ fuel ih =>
    intro N hN l hl
    cases l with
    | nil => rfl
    | cons x xs =>
      show ((x :: xs).take N :: chunksGo fuel N ((x :: xs).drop N)).flatten = x :: xs
      have hlen : ((x :: xs).drop N).length ≤ fuel := by
        rw [List.length_drop, List.length_cons]
        rw [List.length_cons] at hl
        omega
      rw [List.flatten_cons, ih N hN _ hlen, List.take_append_drop]

theorem chunksGo_sizes : ∀ (fuel N : Nat) (l : List String),
    ∀ page ∈ chunksGo fuel N l, page.length ≤ N := by
  intro fuel
  induction fuel with
  | zero => intro N l page h; cases h
  | succ fuel ih =>
    intro N l page h
    cases l with
    | nil => cases h
    | cons x xs =>
      rcases List.mem_cons.mp h with rfl | h
      · exact List.length_take_le _ _
      · exact ih N _ page h

theorem chunksGo_length : ∀ (fuel N : Nat), 0 < N → ∀ l : List String, l.length ≤ fuel →
    (chunksGo fuel N l).length = (l.length + N - 1) / N := by
  intro fuel
  induction fuel with
  | zero =>
    intro N hN l hl
    have h : l = [] := List.length_eq_zero.mp (by omega)
    subst h
    show 0 = (0 + N - 1) / N
    rw [Nat.zero_add, Nat.div_eq_of_lt (by omega)]
  | succ fuel ih =>
    intro N hN l hl
    cases l with
    | nil =>
      show 0 = (0 + N - 1) / N
      rw [Nat.zero_add, Nat.div_eq_of_lt (by omega)]
    | cons x xs =>
      show ((x :: xs).take N :: chunksGo fuel N ((x :: xs).drop N)).length = _
      have hlen : ((x :: xs).drop N).length ≤ fuel := by
        rw [List.length_drop, List.length_cons]
        rw [List.length_cons] at hl
        omega
      rw [List.length_cons, ih N hN _ hlen, List.length_drop, List.length_cons]
      rcases le_or_lt N (xs.length + 1) with hc | hc
      · have h1 : xs.length + 1 - N + N - 1 = xs.length := by omega
        have h2 : xs.length + 1 + N - 1 = xs.length + N := by omega
        rw [h1, h2, Nat.add_div_right _ hN]
      · have h1 : xs.length + 1 - N + N - 1 = N - 1 := by omega
        have h2 : (N - 1) / N = 0 := Nat.div_eq_of_lt (by omega)
        rw [h1, h2]
        have h3 : (xs.length + 1 + N - 1) / N = 1 := by
          apply Nat.div_eq_of_lt_le <;> omega
        omega

theorem chunks_join (N : Nat) (l : List String) (hN : 0 < N) : (chunks N l).flatten = l :=
  chunksGo_join l.length N hN l (Nat.le_refl _)

theorem chunks_sizes (N : Nat) (l : List String) : ∀ page ∈ chunks N l, page.length ≤ N :=
  chunksGo_sizes l.length N l

theorem chunks_length (N : Nat) (l : List String) (hN : 0 < N) :
    (chunks N l).length = (l.length + N - 1) / N :=
  chunksGo_length l.length N hN l (Nat.le_refl _)

/-- The claim of C8: with a positive page size the paginator yields
exactly the ceiling of record count over page size many pages, each page
holds at most the page size many records, and the pages traverse the keys
in ascending sorted order. -/
theorem iterator_pagination_spec (b : AddressBook) (N : Nat) (hN : 0 < N) :
    (iterator b N).length = ((sortedKeys b).length + N - 1) / N ∧
    (∀ page ∈ chunks N (sortedKeys b), page.length ≤ N) ∧
    (chunks N (sortedKeys b)).flatten = sortedKeys b ∧
    List.Sorted strLeP (sortedKeys b) := by
  refine ⟨?_, chunks_sizes N (sortedKeys b), chunks_join N (sortedKeys b) hN,
    sortStrings_sorted _⟩
  rw [iterator, List.length_map]
  exact chunks_length N (sortedKeys b) hN

theorem iterator_pagination_spec_witness :
    (0 < 6 ∧
      ((iterator demoBook 6).length = ((sortedKeys demoBook).length + 6 - 1) / 6 ∧
        (∀ page ∈ chunks 6 (sortedKeys demoBook), page.length ≤ 6) ∧
        (chunks 6 (sortedKeys demoBook)).flatten = sortedKeys demoBook ∧
        List.Sorted strLeP (sortedKeys demoBook))) ∧
    (iterator demoBook 6).length = 3 ∧
    (chunks 6 (sortedKeys demoBook)).map List.length = [6, 6, 1] :=
  ⟨⟨by decide, iterator_pagination_spec demoBook 6 (by decide)⟩, by decide, by decide⟩

/-! ### Date arithmetic for days_to_birthday -/

theorem leapOffset_cases (y : Nat) : leapOffset y = 0 ∨ leapOffset y = 1 := by
  unfold leapOffset
  split
  · exact Or.inr rfl
  · exact Or.inl rfl

theorem isLeap_iff (y : Nat) : isLeap y = true ↔ ((y % 4 = 0 ∧ y % 100 ≠ 0) ∨ y % 400 = 0) := by
  simp [isLeap]

set_option maxHeartbeats 1000000 in
theorem daysBeforeYear_succ (y : Nat) (hy : 1 ≤ y) :
    daysBeforeYear (y + 1) = daysBeforeYear y + 365 + leapOffset y := by
  by_cases h : isLeap y = true
  · have h1 : leapOffset y = 1 := by
      unfold leapOffset
      rw [if_pos h]
    have h2 := (isLeap_iff y).mp h
    rw [h1]
    unfold daysBeforeYear
    omega
  · have h1 : leapOffset y = 0 := by
      unfold leapOffset
      rw [if_neg h]
    have h2 : ¬ ((y % 4 = 0 ∧ y % 100 ≠ 0) ∨ y % 400 = 0) := fun hx => h ((isLeap_iff y).mpr hx)
    rw [h1]
    unfold daysBeforeYear
    omega

theorem dayOfYear_bounds {y m d : Nat} (h : validDate y m d) :
    1 ≤ daysBeforeMonth y m + d ∧ daysBeforeMonth y m + d ≤ 365 + leapOffset y := by
  obtain ⟨hy1, hy2, hm1, hm2, hd1, hd2⟩ := h
  have hl := leapOffset_cases y
  interval_cases m <;> simp only [daysBeforeMonth, daysInMonth] at hd2 ⊢ <;> omega

theorem toOrdinal_bounds {y m d : Nat} (h : validDate y m d) :
    daysBeforeYear y + 1 ≤ toOrdinal (PyDate.mk y m d) ∧
    toOrdinal (PyDate.mk y m d) ≤ daysBeforeYear (y + 1) := by
  have h1 := dayOfYear_bounds h
  have h2 := daysBeforeYear_succ y h.1
  dsimp only [toOrdinal]
  omega

theorem daysBeforeYear_mono {y1 y2 : Nat} (h1 : 1 ≤ y1) (h12 : y1 ≤ y2) :
    daysBeforeYear y1 ≤ daysBeforeYear y2 := by
  induction y2, h12 using Nat.le_induction with
  | base => exact Nat.le_refl _
  | succ n hn ih =>
    have hs := daysBeforeYear_succ n (by omega)
    omega

theorem validDate_any_year {y m d : Nat} (h : validDate y m d) (hnot : ¬(m = 2 ∧ d = 29))
    {y' : Nat} (hy1 : 1 ≤ y') (hy2 : y' ≤ 9999) : validDate y' m d := by
  obtain ⟨_, _, hm1, hm2, hd1, hd2⟩ := h
  refine ⟨hy1, hy2, hm1, hm2, hd1, ?_⟩
  have hl := leapOffset_cases y
  have hl' := leapOffset_cases y'
  interval_cases m <;> simp only [daysInMonth] at hd2 ⊢ <;> omega

theorem toOrdinal_year_succ {y m d : Nat} (hy : 1 ≤ y) (hm1 : 1 ≤ m) (hm2 : m ≤ 12) :
    toOrdinal (PyDate.mk y m d) + 365 ≤ toOrdinal (PyDate.mk (y + 1) m d) ∧
    toOrdinal (PyDate.mk (y + 1) m d) ≤ toOrdinal (PyDate.mk y m d) + 366 := by
  have hs := daysBeforeYear_succ y hy
  have hl := leapOffset_cases y
  have hl' := leapOffset_cases (y + 1)
  dsimp only [toOrdinal]
  interval_cases m <;> simp only [daysBeforeMonth] <;> omega

theorem occurrence_minimal {today : PyDate} {m d Y : Nat}
    (hvt : validDate today.year today.month today.day)
    (hYv : validDate Y m d)
    (hprev : ∀ z, today.year ≤ z → z < Y → toOrdinal (PyDate.mk z m d) < toOrdinal today) :
    ∀ x' : PyDate, validDate x'.year x'.month x'.day → x'.month = m → x'.day = d →
      toOrdinal today ≤ toOrdinal x' → toOrdinal (PyDate.mk Y m d) ≤ toOrdinal x' := by
  intro x' hx' hxm hxd hge
  obtain ⟨xy, xm, xd⟩ := x'
  dsimp only at hxm hxd hx' hge
  subst hxm
  subst hxd
  rcases Nat.lt_trichotomy xy Y with hlt | heq | hgt
  · by_cases hxy : today.year ≤ xy
    · have h := hprev xy hxy hlt
      omega
    · have h1 := (toOrdinal_bounds hx').2
      have h2 : daysBeforeYear (xy + 1) ≤ daysBeforeYear today.year :=
        daysBeforeYear_mono (by omega) (by omega)
      have h3 := (toOrdinal_bounds hvt).1
      have he : PyDate.mk today.year today.month today.day = today := rfl
      rw [he] at h3
      omega
  · subst heq
    exact Nat.le_refl _
  · have h1 := (toOrdinal_bounds hx').1
    have h2 : daysBeforeYear (Y + 1) ≤ daysBeforeYear xy :=
      daysBeforeYear_mono (by omega) (by omega)
    have h3 := (toOrdinal_bounds hYv).2
    omega

/-- The amended claim of C7: with an absent birthday the result is
absent; with a valid stored birthday whose month and day are not
February 29, and an evaluation date below the year cap, the call returns
the non-negative number of days (at most 366) to the next occurrence of
the birthday's month and day on or after the evaluation date.
(A February 29 birthday makes the source raise out of the `date`
constructor in a non-leap year, see the counterexample.) -/
theorem days_to_birthday_spec (r : Record) (today : PyDate)
    (hvt : validDate today.year today.month today.day) (htop : today.year < 9999) :
    (r.birthday = none → days_to_birthday r today = Except.ok none) ∧
    (∀ b, r.birthday = some b → validDate b.year b.month b.day →
      ¬(b.month = 2 ∧ b.day = 29) →
      ∃ n : Int,
        days_to_birthday r today = Except.ok (some n) ∧ 0 ≤ n ∧ n ≤ 366 ∧
        ∃ x : PyDate, validDate x.year x.month x.day ∧ x.month = b.month ∧ x.day = b.day ∧
          toOrdinal today ≤ toOrdinal x ∧
          n = (toOrdinal x : Int) - (toOrdinal today : Int) ∧
          (∀ x' : PyDate, validDate x'.year x'.month x'.day → x'.month = b.month →
            x'.day = b.day → toOrdinal today ≤ toOrdinal x' →
            toOrdinal x ≤ toOrdinal x')) := by
  constructor
  · intro h
    unfold days_to_birthday
    rw [h]
  · intro b hb hvb hnot
    have hv1 : validDate today.year b.month b.day :=
      validDate_any_year hvb hnot hvt.1 hvt.2.1
    have hmk1 : mkDate today.year b.month b.day
        = some (PyDate.mk today.year b.month b.day) := by
      unfold mkDate
      rw [if_pos hv1]
    unfold days_to_birthday
    rw [hb]
    dsimp only
    rw [hmk1]
    dsimp only
    by_cases hcase :
        0 ≤ (toOrdinal (PyDate.mk today.year b.month b.day) : Int) - (toOrdinal today : Int)
    · rw [if_pos hcase]
      refine ⟨_, rfl, hcase, ?_, PyDate.mk today.year b.month b.day, hv1, rfl, rfl, ?_,
        rfl, ?_⟩
      · have h1 := (toOrdinal_bounds hvt).1
        have he : PyDate.mk today.year today.month today.day = today := rfl
        rw [he] at h1
        have h2 := (toOrdinal_bounds hv1).2
        have h3 := daysBeforeYear_succ today.year hvt.1
        have h4 := leapOffset_cases today.year
        omega
      · omega
      · apply occurrence_minimal hvt hv1
        intro z hz1 hz2
        omega
    · rw [if_neg hcase]
      have hv2 : validDate (today.year + 1) b.month b.day :=
        validDate_any_year hvb hnot (by omega) (by omega)
      have hmk2 : mkDate (today.year + 1) b.month b.day
          = some (PyDate.mk (today.year + 1) b.month b.day) := by
        unfold mkDate
        rw [if_pos hv2]
      rw [hmk2]
      dsimp only
      have hT := (toOrdinal_bounds hvt).2
      have he : PyDate.mk today.year today.month today.day = today := rfl
      rw [he] at hT
      have hB2 := (toOrdinal_bounds hv2).1
      have hstep := (toOrdinal_year_succ (d := b.day) hvt.1 hvb.2.2.1 hvb.2.2.2.1).2
      refine ⟨_, rfl, ?_, ?_, PyDate.mk (today.year + 1) b.month b.day, hv2, rfl, rfl, ?_,
        rfl, ?_⟩
      · have hs := daysBeforeYear_succ today.year hvt.1
        omega
      · omega
      · have hs := daysBeforeYear_succ today.year hvt.1
        omega
      · apply occurrence_minimal hvt hv2
        intro z hz1 hz2
        have hzz : z = today.year := by omega
        subst hzz
        omega

/-- Counterexample to C7 as stated: a record whose valid birthday falls on
February 29 makes `days_to_birthday` raise out of the `date` constructor
on a non-leap evaluation year instead of returning a number. -/
theorem days_to_birthday_cex :
    mkRecord "Leap" [] (some "2000-02-29")
      = Except.ok (Record.mk "Leap" [] (some (PyDate.mk 2000 2 29))) ∧
    validDate 2000 2 29 ∧ validDate 2023 6 1 ∧
    days_to_birthday (Record.mk "Leap" [] (some (PyDate.mk 2000 2 29))) (PyDate.mk 2023 6 1)
      = Except.error (BookError.badDate 2023 2 29) :=
  ⟨rfl, by decide, by decide, rfl⟩

theorem days_to_birthday_spec_witness :
    mkRecord "Bilbo" ["123123123", "666736473", "232322323"] (some "1988-12-01")
      = Except.ok (Record.mk "Bilbo" ["123123123", "232322323", "666736473"]
          (some (PyDate.mk 1988 12 1))) ∧
    days_to_birthday
        (Record.mk "Bilbo" ["123123123", "232322323", "666736473"]
          (some (PyDate.mk 1988 12 1))) (PyDate.mk 2024 1 15)
      = Except.ok (some 321) ∧
    (∃ n : Int,
      days_to_birthday
          (Record.mk "Bilbo" ["123123123", "232322323", "666736473"]
            (some (PyDate.mk 1988 12 1))) (PyDate.mk 2024 1 15)
        = Except.ok (some n) ∧ 0 ≤ n ∧ n ≤ 366 ∧
      ∃ x : PyDate, validDate x.year x.month x.day ∧ x.month = 12 ∧ x.day = 1 ∧
        toOrdinal (PyDate.mk 2024 1 15) ≤ toOrdinal x ∧
        n = (toOrdinal x : Int) - (toOrdinal (PyDate.mk 2024 1 15) : Int) ∧
        (∀ x' : PyDate, validDate x'.year x'.month x'.day → x'.month = 12 → x'.day = 1 →
          toOrdinal (PyDate.mk 2024 1 15) ≤ toOrdinal x' → toOrdinal x ≤ toOrdinal x')) := by
  refine ⟨rfl, rfl, ?_⟩
  exact (days_to_birthday_spec
      (Record.mk "Bilbo" ["123123123", "232322323", "666736473"] (some (PyDate.mk 1988 12 1)))
      (PyDate.mk 2024 1 15) (by decide) (by decide)).2
    (PyDate.mk 1988 12 1) rfl (by decide) (by decide)

end AdressBook
